import Mathlib

/-!
Shallow embedding of the chaz bot core (`src/main.rs`): the transcript
reconstruction scan (`get_context`), the rate limiter (`rate_limit`), the
room rename flow (`rename`) and the summary cleaner
(`clean_summary_response`).  External collaborators (the messaging
session, the backend, the media store) are modelled as explicit inputs:
the history collaborator as the list of successive page-fetch results,
the backend model list as a plain list of names, and media fetches as the
identity on the media source reference.
-/

set_option maxRecDepth 10000

/-- Model of Rust `str::starts_with`: character-list prefix test
(the patterns used by the program are ASCII, where byte prefix and
character prefix coincide). -/
def starts_with (s p : String) : Bool :=
  p.data.isPrefixOf s.data

/-- Modelled from the spec: the external directive-classification
predicate of the bot framework (a message is a directive when it begins
with the control character `.`, with a doubled `..` escaping literal
text that starts with that character).  The predicate itself lives in
the external `headjack` crate, outside this repository. -/
def is_command (s : String) : Bool :=
  starts_with s "." && !starts_with s ".."

/-- Accumulating pass of `split_whitespace`: `acc` holds the reversed
characters of the fragment being read. -/
def split_whitespace_aux : List Char → List Char → List String
  | [], acc => if acc.isEmpty then [] else [String.mk acc.reverse]
  | c :: rest, acc =>
    if c.isWhitespace then
      if acc.isEmpty then split_whitespace_aux rest []
      else String.mk acc.reverse :: split_whitespace_aux rest []
    else split_whitespace_aux rest (c :: acc)

/-- Model of Rust `str::split_whitespace`: the non-empty fragments
between whitespace runs. -/
def split_whitespace (s : String) : List String :=
  split_whitespace_aux s.data []

/-- Model of `text.split_whitespace().nth(1)`: the second
whitespace-separated token, if any. -/
def nth1 (s : String) : Option String :=
  (split_whitespace s).get? 1

/-- The message kinds of `ruma`'s `MessageType` that `get_context`
distinguishes.  Media-bearing kinds carry the media source reference
(modelled as a `Nat`); the fetched `MediaFileHandle` is modelled as that
same reference. -/
inductive MsgType where
  | audio (body : String)
  | emote (body : String)
  | file (body : String) (source : Nat)
  | image (body : String) (source : Nat)
  | location (body : String)
  | notice (body : String)
  | serverNotice (body : String)
  | text (body : String)
  | verificationRequest
  | video (body : String)
  | custom (msgtype : String) (body : String)
deriving Repr, DecidableEq

/-- A timeline event as `get_context` sees it: the extracted
`(sender, content)` pair, or `none` when either field is missing
(the `get_field … zip …` miss case, which the scan skips). -/
abbrev REvent := Option (String × MsgType)

/-- The accumulator threaded through one reconstruction pass:
rendered lines in scan (newest-first) order, the resolved model
override, the resolved lurk flag, and the media handles
(front-inserted, hence oldest-first). -/
structure CtxState where
  messages : List String
  model_response : Option String
  lurk : Option Bool
  media : List Nat
deriving Repr, DecidableEq

def initCtx : CtxState := ⟨[], none, none, []⟩

/-- One page of room history: the events of `batch.chunk` in
reverse-chronological order, and `batch.end`, the cursor of the next
older page. -/
structure Batch where
  chunk : List REvent
  endToken : Option String
deriving Repr, DecidableEq

/-- Processing of a single timeline event inside the scan loop of
`get_context`.  Returns the updated state and whether the
`break 'outer` of the `.clear` branch fired. -/
def processEvent (botId : String) (models : List String) (st : CtxState) (ev : REvent) :
    CtxState × Bool :=
  match ev with
  | none => (st, false)
  | some (sender, mt) =>
    match mt with
    | MsgType.audio b =>
        ({ st with messages := st.messages ++ ["USER sent an audio file: " ++ b ++ "\n"] }, false)
    | MsgType.emote b =>
        ({ st with messages := st.messages ++ ["USER sent an emote: " ++ b ++ "\n"] }, false)
    | MsgType.file b src =>
        ({ st with messages := st.messages ++ ["USER sent a file: " ++ b ++ "\n"],
                   media := src :: st.media }, false)
    | MsgType.image b src =>
        ({ st with messages := st.messages ++ ["USER sent an image: " ++ b ++ "\n"],
                   media := src :: st.media }, false)
    | MsgType.location b =>
        ({ st with messages := st.messages ++ ["USER sent their location: " ++ b ++ "\n"] }, false)
    | MsgType.notice b =>
        if sender == botId then (st, false)
        else ({ st with messages := st.messages ++ ["USER sent a notice: " ++ b ++ "\n"] }, false)
    | MsgType.serverNotice b =>
        ({ st with messages := st.messages ++ ["SERVER: " ++ b ++ "\n"] }, false)
    | MsgType.text b =>
        if is_command b then
          if starts_with b ".model" && st.model_response.isNone then
            match nth1 b with
            | some m =>
                if models.contains m then ({ st with model_response := some m }, false)
                else (st, false)
            | none => (st, false)
          else if starts_with b ".nolurk" then ({ st with lurk := some false }, false)
          else if starts_with b ".lurk" && st.lurk.isNone then ({ st with lurk := some true }, false)
          else if starts_with b ".clear" then (st, true)
          else (st, false)
        else if !(st.lurk.getD false) then
          if sender == botId then
            ({ st with messages := st.messages ++ ["ASSISTANT: " ++ b ++ "\n"] }, false)
          else
            ({ st with messages := st.messages ++ ["USER: " ++ b ++ "\n"] }, false)
        else (st, false)
    | MsgType.verificationRequest => (st, false)
    | MsgType.video b =>
        ({ st with messages := st.messages ++ ["USER sent a video file: " ++ b ++ "\n"] }, false)
    | MsgType.custom t b =>
        ({ st with messages :=
            st.messages ++ ["USER sent a message of type " ++ t ++ ": " ++ b ++ "\n"] }, false)

/-- The inner `for message in batch.chunk` loop: fold `processEvent`
over one page, stopping at the first event that fires `break 'outer`. -/
def processChunk (botId : String) (models : List String) :
    CtxState → List REvent → CtxState × Bool
  | st, [] => (st, false)
  | st, ev :: rest =>
    let r := processEvent botId models st ev
    if r.2 then r else processChunk botId models r.1 rest

/-- The outer `'outer: while let Ok(batch) = room.messages(options)`
loop.  The argument list holds the successive page-fetch results: an
`Except.error` entry is a failed fetch (which ends the `while let`
without an error result), and pagination continues past a page exactly
when its `endToken` is present. -/
def get_context_loop (botId : String) (models : List String) :
    CtxState → List (Except Unit Batch) → CtxState
  | st, [] => st
  | st, Except.error _ :: _ => st
  | st, Except.ok b :: rest =>
    let r := processChunk botId models st b.chunk
    if r.2 then r.1
    else
      match b.endToken with
      | some _ => get_context_loop botId models r.1 rest
      | none => r.1

/-- The final rendering of `get_context`: the accumulated lines reversed
into chronological order and concatenated, plus the resolved model
override, lurk flag and media list. -/
def renderCtx (st : CtxState) : String × Option String × Option Bool × List Nat :=
  (String.join st.messages.reverse, st.model_response, st.lurk, st.media)

/-- Model of `get_context`: the full reconstruction pass.  Mirrors the Rust
control flow: every exit path reaches the trailing `Ok((...))`, so the
result is always the success branch. -/
def get_context (botId : String) (models : List String)
    (fetches : List (Except Unit Batch)) :
    Except Unit (String × Option String × Option Bool × List Nat) :=
  Except.ok (renderCtx (get_context_loop botId models initCtx fetches))

/-! ## Rate limiter -/

/-- The value `u64::max_value()`, the default for the unconfigured limits. -/
def u64max : Nat := 2 ^ 64 - 1

/-- Result of one `rate_limit` call: the returned boolean, the counter
map afterwards, and the notice sent, if any.  The counter map is
modelled as a total function defaulting to 0, which is exactly the
get-or-insert-0 behaviour of the Rust `HashMap` (the insert of an
explicit 0 entry before the room-size check does not change any
counter value in this view). -/
structure RateResult where
  throttled : Bool
  counters : String → Nat
  notice : Option String

/-- Model of `rate_limit`: room-size check first (silent), then counter check
against the message limit, incrementing on a pass and sending the
limit notice on a hard rejection. -/
def rate_limit (message_limit room_size_limit : Option Nat) (room_size : Nat)
    (counters : String → Nat) (sender : String) : RateResult :=
  let ml := message_limit.getD u64max
  let rsl := room_size_limit.getD u64max
  if room_size > rsl then ⟨true, counters, none⟩
  else if counters sender < ml then
    ⟨false, fun s => if s == sender then counters sender + 1 else counters s, none⟩
  else
    ⟨true, counters,
      some (".error: you have used up your message limit of " ++ toString ml ++ " messages.")⟩

/-- The counter map after `n` successive `rate_limit` calls for the same
sender in the same room, starting from `counters`. -/
def rate_limit_iter (message_limit room_size_limit : Option Nat) (room_size : Nat)
    (sender : String) (counters : String → Nat) : Nat → (String → Nat)
  | 0 => counters
  | n + 1 =>
    (rate_limit message_limit room_size_limit room_size
      (rate_limit_iter message_limit room_size_limit room_size sender counters n)
      sender).counters

/-! ## Summary cleaning and the rename flow -/

/-- Characters before the next `"`, when a closing `"` exists. -/
def takeToQuote : List Char → Option (List Char)
  | [] => none
  | c :: rest => if c == '"' then some [] else (takeToQuote rest).map (c :: ·)

/-- The capture of the first match of the regex `"([^"]*)"`: the content
between the first `"` and the `"` that follows it, if both exist. -/
def firstQuoted : List Char → Option (List Char)
  | [] => none
  | c :: rest => if c == '"' then takeToQuote rest else firstQuoted rest

/-- Model of `clean_summary_response`: extract the first double-quoted substring
if one exists, else the response verbatim; optionally truncate to
`max_length` characters. -/
def clean_summary_response (response : String) (max_length : Option Nat) : String :=
  let r :=
    match firstQuoted response.data with
    | some cs => String.mk cs
    | none => response
  match max_length with
  | some n => String.mk (r.data.take n)
  | none => r

/-- The observable room operations performed by `rename`. -/
inductive RoomAction where
  | sendNotice (body : String)
  | setName (name : String)
  | setRoomTopic (topic : String)
deriving Repr, DecidableEq

instance {ε α : Type} [DecidableEq ε] [DecidableEq α] : DecidableEq (Except ε α) := fun x y =>
  match x, y with
  | Except.ok a, Except.ok b =>
      if h : a = b then isTrue (by rw [h]) else isFalse (fun hc => h (Except.ok.inj hc))
  | Except.error a, Except.error b =>
      if h : a = b then isTrue (by rw [h]) else isFalse (fun hc => h (Except.error.inj hc))
  | Except.ok _, Except.error _ => isFalse (fun hc => Except.noConfusion hc)
  | Except.error _, Except.ok _ => isFalse (fun hc => Except.noConfusion hc)

/-- The environment of one `rename` call: the rate-limiter answer, the
`get_context` transcript (the `Ok` branch payload), the backend
responses for the title and topic prompts, and whether the two
room-metadata updates fail (permission errors). -/
structure RenameEnv where
  rateLimited : Bool
  context : Option String
  titleResponse : Except String String
  setNameFails : Bool
  topicResponse : Except String String
  setTopicFails : Bool
deriving Repr, DecidableEq

/-- The sequence of room operations `rename` performs, mirroring its
control flow: early return when rate limited or without context; on an
`Ok` title response, set the name, and on a set-name failure send the
permission notice and return before the topic stage; a failed title
model call skips only the set-name; then the topic stage likewise. -/
def rename_trace (env : RenameEnv) : List RoomAction :=
  if env.rateLimited then []
  else
    match env.context with
    | none => []
    | some _ =>
      let titleStage : List RoomAction × Bool :=
        match env.titleResponse with
        | Except.ok result =>
          let r := clean_summary_response result none
          if env.setNameFails then
            ([RoomAction.setName r,
              RoomAction.sendNotice ".error: I don\x27t have permission to rename the room"], true)
          else ([RoomAction.setName r], false)
        | Except.error _ => ([], false)
      if titleStage.2 then titleStage.1
      else
        titleStage.1 ++
          match env.topicResponse with
          | Except.ok result =>
            let r := clean_summary_response result none
            if env.setTopicFails then
              [RoomAction.setRoomTopic r,
               RoomAction.sendNotice ".error: I don\x27t have permission to set the topic"]
            else [RoomAction.setRoomTopic r]
          | Except.error _ => []

/-- Whether a room action is a topic update. -/
def isSetTopic : RoomAction → Bool
  | RoomAction.setRoomTopic _ => true
  | _ => false

/-! ## Derived observation functions used to state the claims -/

/-- Whether an event fires the `break 'outer` of the scan: a text event
classified as a directive whose body begins with `.clear`.  (The other
directive prefixes are mutually exclusive with `.clear`, so the break
condition is independent of the accumulator state; proved below.) -/
def breaksScan : REvent → Bool
  | some (_, MsgType.text b) => is_command b && starts_with b ".clear"
  | _ => false

/-- The model-override contribution of a single event, stated in the
words of the spec: for a directive beginning with `.model`, the second
whitespace-separated token when it appears in the backend model list. -/
def modelDirectiveToken (models : List String) : REvent → Option String
  | some (_, MsgType.text b) =>
    if is_command b && starts_with b ".model" then
      match nth1 b with
      | some m => if models.contains m then some m else none
      | none => none
    else none
  | _ => none

/-- Spec-side model resolution: the first valid `.model` token in scan
(newest-first) order, looking only at events before the first `.clear`
directive. -/
def resolvedModelSpec (models : List String) (evs : List REvent) : Option String :=
  (evs.takeWhile (fun e => !breaksScan e)).findSome? (modelDirectiveToken models)

/-- The media source reference carried by an event, if any. -/
def mediaRef : REvent → Option Nat
  | some (_, MsgType.file _ src) => some src
  | some (_, MsgType.image _ src) => some src
  | _ => none

/-- The media references of a list of events, in that order. -/
def mediaRefs (evs : List REvent) : List Nat :=
  evs.filterMap mediaRef

/-- The events the scan visits and processes, in visit (newest-first)
order: pages are consumed until a failed fetch, a missing continuation
token, or a page containing a `.clear` directive, which is consumed
only up to that directive. -/
def scanStream : List (Except Unit Batch) → List REvent
  | [] => []
  | Except.error _ :: _ => []
  | Except.ok b :: rest =>
    if b.chunk.any breaksScan then b.chunk.takeWhile (fun e => !breaksScan e)
    else
      match b.endToken with
      | some _ => b.chunk ++ scanStream rest
      | none => b.chunk

/-! ## Prefix facts about the directive patterns -/

theorem starts_with_append_left (p s : String) : starts_with (p ++ s) p = true := by
  simp [starts_with, List.isPrefixOf_iff_prefix]

theorem starts_with_of_append (p s q : String) (h : starts_with p q = true) :
    starts_with (p ++ s) q = true := by
  simp only [starts_with, String.data_append, List.isPrefixOf_iff_prefix] at h ⊢
  exact h.trans (List.prefix_append _ _)

theorem isPrefixOf_conflict {p q b : List Char} (i : Nat) (hp : i < p.length) (hq : i < q.length)
    (hne : p.get ⟨i, hp⟩ ≠ q.get ⟨i, hq⟩)
    (h1 : p.isPrefixOf b = true) (h2 : q.isPrefixOf b = true) : False := by
  rw [ List.isPrefixOf_iff_prefix] at h1 h2
  have e1 := h1.getElem hp
  have e2 := h2.getElem hq
  apply hne
  simp only [List.get_eq_getElem]
  rw [e1, e2]

theorem starts_with_conflict (p q : String) {b : String} (i : Nat)
    (hp : i < p.data.length) (hq : i < q.data.length)
    (hne : p.data.get ⟨i, hp⟩ ≠ q.data.get ⟨i, hq⟩)
    (h : starts_with b p = true) : starts_with b q = false := by
  by_contra hc
  rw [Bool.not_eq_false] at hc
  exact isPrefixOf_conflict i hp hq hne h hc

theorem not_clear_of_model {b : String} (h : starts_with b ".model" = true) :
    starts_with b ".clear" = false :=
  starts_with_conflict ".model" ".clear" 1 (by decide) (by decide) (by decide) h

theorem not_clear_of_nolurk {b : String} (h : starts_with b ".nolurk" = true) :
    starts_with b ".clear" = false :=
  starts_with_conflict ".nolurk" ".clear" 1 (by decide) (by decide) (by decide) h

theorem not_clear_of_lurk {b : String} (h : starts_with b ".lurk" = true) :
    starts_with b ".clear" = false :=
  starts_with_conflict ".lurk" ".clear" 1 (by decide) (by decide) (by decide) h

theorem not_model_of_clear {b : String} (h : starts_with b ".clear" = true) :
    starts_with b ".model" = false :=
  starts_with_conflict ".clear" ".model" 1 (by decide) (by decide) (by decide) h

theorem not_nolurk_of_clear {b : String} (h : starts_with b ".clear" = true) :
    starts_with b ".nolurk" = false :=
  starts_with_conflict ".clear" ".nolurk" 1 (by decide) (by decide) (by decide) h

theorem not_lurk_of_clear {b : String} (h : starts_with b ".clear" = true) :
    starts_with b ".lurk" = false :=
  starts_with_conflict ".clear" ".lurk" 1 (by decide) (by decide) (by decide) h

theorem not_model_of_nolurk {b : String} (h : starts_with b ".nolurk" = true) :
    starts_with b ".model" = false :=
  starts_with_conflict ".nolurk" ".model" 1 (by decide) (by decide) (by decide) h

theorem not_model_of_lurk {b : String} (h : starts_with b ".lurk" = true) :
    starts_with b ".model" = false :=
  starts_with_conflict ".lurk" ".model" 1 (by decide) (by decide) (by decide) h

theorem not_nolurk_of_lurk {b : String} (h : starts_with b ".lurk" = true) :
    starts_with b ".nolurk" = false :=
  starts_with_conflict ".lurk" ".nolurk" 1 (by decide) (by decide) (by decide) h

/-- A directive pattern followed by an arbitrary suffix is classified as
a command, provided its second character is not the escape dot. -/
theorem is_command_append (p s : String) (hlen : 1 < p.data.length)
    (hdot : starts_with p "." = true) (hne : p.data.get ⟨1, hlen⟩ ≠ '.') :
    is_command (p ++ s) = true := by
  have h1 : starts_with (p ++ s) "." = true := starts_with_of_append p s "." hdot
  have h2 : starts_with (p ++ s) ".." = false :=
    starts_with_conflict p ".." 1 hlen (by decide) hne (starts_with_append_left p s)
  simp [is_command, h1, h2]

theorem not_nolurk_of_model {b : String} (h : starts_with b ".model" = true) :
    starts_with b ".nolurk" = false :=
  starts_with_conflict ".model" ".nolurk" 1 (by decide) (by decide) (by decide) h

theorem not_lurk_of_model {b : String} (h : starts_with b ".model" = true) :
    starts_with b ".lurk" = false :=
  starts_with_conflict ".model" ".lurk" 1 (by decide) (by decide) (by decide) h

/-! ## Event-level characterization of the scan -/

/-- Whether `processEvent` fires the break is exactly `breaksScan`,
independently of the accumulator state: the directive prefixes are
mutually exclusive, so the earlier branches of the `else if` chain never
swallow a `.clear` body. -/
theorem processEvent_break (botId : String) (models : List String) (st : CtxState) (ev : REvent) :
    (processEvent botId models st ev).2 = breaksScan ev := by
  match ev with
  | none => rfl
  | some (sender, mt) =>
    cases mt <;> simp only [processEvent, breaksScan] <;> try rfl
    case notice b => split <;> rfl
    case text b =>
      cases hc : is_command b with
      | false =>
        simp only [Bool.false_eq_true, if_false, Bool.false_and]
        split
        · split <;> rfl
        · rfl
      | true =>
        simp only [if_true, Bool.true_and]
        cases hm : starts_with b ".model" with
        | true =>
          rw [not_clear_of_model hm]
          cases hn : st.model_response.isNone with
          | true =>
            simp only [Bool.true_and, if_true]
            cases h2 : nth1 b with
            | none => rfl
            | some m => dsimp only; split <;> rfl
          | false =>
            simp [hm, hn, not_nolurk_of_model hm, not_lurk_of_model hm]
        | false =>
          cases hno : starts_with b ".nolurk" with
          | true => rw [not_clear_of_nolurk hno]; simp [hm, hno]
          | false =>
            cases hl : starts_with b ".lurk" with
            | true =>
              rw [not_clear_of_lurk hl]
              try simp only [hm, hno, hl, Bool.false_and, Bool.true_and, if_false, if_true]
              repeat' split
              all_goals rfl
            | false =>
              simp only [hm, hno, hl, Bool.false_and, if_false]
              cases hcl : starts_with b ".clear" <;> simp [hcl]

/-- A breaking event (a `.clear` directive) leaves the accumulator
untouched and stops the scan. -/
theorem processEvent_of_break (botId : String) (models : List String) (st : CtxState)
    (ev : REvent) (h : breaksScan ev = true) :
    processEvent botId models st ev = (st, true) := by
  match ev with
  | none => exact absurd h (by simp [breaksScan])
  | some (sender, mt) =>
    cases mt
    case text b =>
      simp only [breaksScan, Bool.and_eq_true] at h
      obtain ⟨hc, hcl⟩ := h
      simp [processEvent, hc, hcl, not_model_of_clear hcl, not_nolurk_of_clear hcl,
        not_lurk_of_clear hcl]
    all_goals exact absurd h (by simp [breaksScan])

/-- The media effect of one event: a file or image event front-inserts
its fetched handle, every other event leaves the media list alone. -/
theorem processEvent_media (botId : String) (models : List String) (st : CtxState) (ev : REvent) :
    (processEvent botId models st ev).1.media =
      (mediaRef ev).elim st.media (fun r => r :: st.media) := by
  match ev with
  | none => rfl
  | some (sender, mt) =>
    cases mt <;> simp only [processEvent, mediaRef, Option.elim] <;> try rfl
    case notice b => split <;> rfl
    case text b =>
      repeat' split
      all_goals rfl

/-- The model-override effect of one event: an already-resolved override
is never overwritten, and from the unresolved state the event contributes
exactly its valid `.model` token, if any. -/
theorem processEvent_model (botId : String) (models : List String) (st : CtxState) (ev : REvent) :
    (processEvent botId models st ev).1.model_response =
      (match st.model_response with
       | some m => some m
       | none => modelDirectiveToken models ev) := by
  obtain ⟨msgs, mr, lk, md⟩ := st
  cases mr with
  | some m =>
    match ev with
    | none => rfl
    | some (sender, mt) =>
      cases mt <;> simp only [processEvent] <;> try rfl
      case notice b => split <;> rfl
      case text b =>
        repeat' split
        all_goals first | rfl | simp_all
  | none =>
    match ev with
    | none => rfl
    | some (sender, mt) =>
      cases mt <;> simp only [processEvent, modelDirectiveToken] <;> try rfl
      case notice b => split <;> rfl
      case text b =>
        cases hc : is_command b with
        | false =>
          simp only [hc, Bool.false_eq_true, if_false, Bool.false_and]
          repeat' split
          all_goals first | rfl | simp_all
        | true =>
          cases hm : starts_with b ".model" with
          | true =>
            simp only [hc, hm, if_true, Bool.true_and, Option.isNone_none, Bool.and_true]
            cases h2 : nth1 b with
            | none => rfl
            | some m2 => dsimp only; split <;> rfl
          | false =>
            simp only [hc, hm, if_true, Bool.false_and, if_false]
            repeat' split
            all_goals first | rfl | simp_all

/-! ## Chunk-level lemmas -/

theorem processChunk_cons (botId : String) (models : List String) (st : CtxState)
    (ev : REvent) (rest : List REvent) :
    processChunk botId models st (ev :: rest) =
      if (processEvent botId models st ev).2 then processEvent botId models st ev
      else processChunk botId models (processEvent botId models st ev).1 rest := rfl

/-- The inner loop breaks exactly when the page contains a `.clear`
directive. -/
theorem processChunk_break (botId : String) (models : List String) (evs : List REvent) :
    ∀ st : CtxState, (processChunk botId models st evs).2 = evs.any breaksScan := by
  induction evs with
  | nil => intro st; rfl
  | cons ev rest ih =>
    intro st
    rw [processChunk_cons, List.any_cons]
    cases h : breaksScan ev with
    | true => simp [processEvent_break, h]
    | false => simp [processEvent_break, h, ih]

/-- Splitting a page in two: the scan of the concatenation either stops
inside the first part, or continues through the second from the state the
first part produced. -/
theorem processChunk_append (botId : String) (models : List String)
    (l1 l2 : List REvent) :
    ∀ st : CtxState, processChunk botId models st (l1 ++ l2) =
      if (processChunk botId models st l1).2 then processChunk botId models st l1
      else processChunk botId models (processChunk botId models st l1).1 l2 := by
  induction l1 with
  | nil => intro st; simp [processChunk]
  | cons ev rest ih =>
    intro st
    rw [List.cons_append, processChunk_cons, processChunk_cons]
    cases he : (processEvent botId models st ev).2 with
    | true => simp [he]
    | false => simp only [Bool.false_eq_true, if_false]; exact ih _

/-- The events of one page the scan actually processes to any effect:
everything before the first `.clear` directive (the directive itself
changes nothing). -/
def visitedChunk (evs : List REvent) : List REvent :=
  evs.takeWhile (fun e => !breaksScan e)

theorem visitedChunk_of_no_break {evs : List REvent} (h : evs.any breaksScan = false) :
    visitedChunk evs = evs := by
  rw [List.any_eq_false] at h
  rw [visitedChunk, List.takeWhile_eq_self_iff]
  intro x hx
  simp [h x hx]

theorem visitedChunk_cons_of_break {ev : REvent} (rest : List REvent)
    (h : breaksScan ev = true) : visitedChunk (ev :: rest) = [] := by
  simp [visitedChunk, List.takeWhile_cons, h]

theorem visitedChunk_cons_of_no_break {ev : REvent} (rest : List REvent)
    (h : breaksScan ev = false) : visitedChunk (ev :: rest) = ev :: visitedChunk rest := by
  simp [visitedChunk, List.takeWhile_cons, h]

/-- Media effect of one page: the handles of its visited media events,
front-inserted, i.e. reversed, on top of the incoming list. -/
theorem processChunk_media (botId : String) (models : List String) (evs : List REvent) :
    ∀ st : CtxState, (processChunk botId models st evs).1.media =
      (mediaRefs (visitedChunk evs)).reverse ++ st.media := by
  induction evs with
  | nil => intro st; simp [processChunk, visitedChunk, mediaRefs]
  | cons ev rest ih =>
    intro st
    cases h : breaksScan ev with
    | true =>
      rw [processChunk_cons, processEvent_of_break botId models st ev h,
        visitedChunk_cons_of_break rest h]
      simp [mediaRefs]
    | false =>
      rw [processChunk_cons, visitedChunk_cons_of_no_break rest h]
      simp only [processEvent_break, h, Bool.false_eq_true, if_false]
      rw [ih]
      rw [show mediaRefs (ev :: visitedChunk rest) =
            ((mediaRef ev).toList) ++ mediaRefs (visitedChunk rest) from ?_]
      · rw [processEvent_media, List.reverse_append]
        cases hm : mediaRef ev <;> simp [Option.elim, Option.toList]
      · rw [mediaRefs, List.filterMap_cons]
        cases hm : mediaRef ev <;> simp [Option.toList, mediaRefs]

/-- Model-override effect of one page: an already-resolved override is
kept, and from the unresolved state the result is the first valid
`.model` token among the visited events. -/
theorem processChunk_model (botId : String) (models : List String) (evs : List REvent) :
    ∀ st : CtxState, (processChunk botId models st evs).1.model_response =
      (match st.model_response with
       | some m => some m
       | none => (visitedChunk evs).findSome? (modelDirectiveToken models)) := by
  induction evs with
  | nil =>
    intro st
    cases hmr : st.model_response <;> simp [processChunk, visitedChunk, hmr, List.findSome?_nil]
  | cons ev rest ih =>
    intro st
    cases h : breaksScan ev with
    | true =>
      rw [processChunk_cons, processEvent_of_break botId models st ev h,
        visitedChunk_cons_of_break rest h]
      cases hmr : st.model_response <;> simp [hmr, List.findSome?_nil]
    | false =>
      rw [processChunk_cons, visitedChunk_cons_of_no_break rest h]
      simp only [processEvent_break, h, Bool.false_eq_true, if_false]
      rw [ih]
      cases hmr : st.model_response with
      | some m =>
        have hev := processEvent_model botId models st ev
        rw [hmr] at hev
        rw [hev]
      | none =>
        have hev := processEvent_model botId models st ev
        rw [hmr] at hev
        rw [hev, List.findSome?_cons]
        cases hd : modelDirectiveToken models ev <;> simp

/-! ## Loop-level lemmas -/

/-- A single page with no continuation token: the pass is exactly the
scan of that page. -/
theorem get_context_loop_single (botId : String) (models : List String) (st : CtxState)
    (evs : List REvent) :
    get_context_loop botId models st [Except.ok ⟨evs, none⟩] =
      (processChunk botId models st evs).1 := by
  cases h : (processChunk botId models st evs).2 <;> simp [get_context_loop, h]

theorem resolvedModelSpec_eq_visited (models : List String) (evs : List REvent) :
    resolvedModelSpec models evs = (visitedChunk evs).findSome? (modelDirectiveToken models) := rfl

/-- The media list accumulated over the whole pass is the reverse of the
scan-order media references of the visited events. -/
theorem get_context_loop_media (botId : String) (models : List String) :
    ∀ (fetches : List (Except Unit Batch)) (st : CtxState),
      (get_context_loop botId models st fetches).media =
        (mediaRefs (scanStream fetches)).reverse ++ st.media := by
  intro fetches
  induction fetches with
  | nil => intro st; simp [get_context_loop, scanStream, mediaRefs]
  | cons f rest ih =>
    intro st
    match f with
    | Except.error e => simp [get_context_loop, scanStream, mediaRefs]
    | Except.ok b =>
      have hb := processChunk_break botId models b.chunk st
      simp only [get_context_loop, scanStream]
      cases ha : b.chunk.any breaksScan with
      | true =>
        rw [hb, ha]
        simp only [if_true]
        rw [processChunk_media]
        simp [ha, visitedChunk]
      | false =>
        rw [hb, ha]
        simp only [Bool.false_eq_true, if_false]
        cases hend : b.endToken with
        | some tok =>
          rw [ih]
          rw [processChunk_media botId models b.chunk st, visitedChunk_of_no_break ha]
          simp [ha, mediaRefs, List.filterMap_append]
        | none =>
          rw [processChunk_media botId models b.chunk st, visitedChunk_of_no_break ha]

/-! ## Claim theorems -/

/-- C2 (counterexample): when the very first page fetch fails,
`get_context` does NOT return the error branch: it returns the success
branch carrying an empty transcript, no model override, no lurk flag and
no media, because the `while let Ok(batch)` loop merely ends and control
falls through to the trailing `Ok((...))`. -/
theorem first_fetch_failure_counterexample :
    get_context "bot" [] [Except.error ()] = Except.ok ("", none, none, []) ∧
    get_context "bot" [] [Except.error ()] ≠ Except.error () := by
  constructor
  · decide
  · decide

/-- C2 (amended): if the very first history page fetch fails,
`get_context` returns the success branch with an empty transcript, no
model override, no lurk flag and no media; the error branch of its
result type is never produced, so the caller's "could not get context"
path is not reached this way. -/
theorem first_fetch_failure_returns_empty_ok (botId : String) (models : List String)
    (rest : List (Except Unit Batch)) :
    get_context botId models (Except.error () :: rest) = Except.ok ("", none, none, []) := rfl

/-- C3: with a configured `message_limit` of `N` and the room under the
room-size limit, each of the first `N` calls for a sender starting from a
zero counter returns throttled = false and increments the counter, so the
counter is exactly `N` after `N` calls; the `(N+1)`-th call returns
throttled = true, leaves the counter map unchanged, and sends the notice
stating the configured limit. -/
theorem rate_limit_message_limit_behavior (N : Nat) (rsl : Option Nat) (room_size : Nat)
    (c0 : String → Nat) (sender : String)
    (hroom : ¬ room_size > rsl.getD u64max) (h0 : c0 sender = 0) :
    (∀ k, k < N →
      (rate_limit (some N) rsl room_size
          (rate_limit_iter (some N) rsl room_size sender c0 k) sender).throttled = false ∧
      rate_limit_iter (some N) rsl room_size sender c0 (k + 1) sender = k + 1) ∧
    rate_limit_iter (some N) rsl room_size sender c0 N sender = N ∧
    (rate_limit (some N) rsl room_size
        (rate_limit_iter (some N) rsl room_size sender c0 N) sender).throttled = true ∧
    (rate_limit (some N) rsl room_size
        (rate_limit_iter (some N) rsl room_size sender c0 N) sender).counters =
      rate_limit_iter (some N) rsl room_size sender c0 N ∧
    (rate_limit (some N) rsl room_size
        (rate_limit_iter (some N) rsl room_size sender c0 N) sender).notice =
      some (".error: you have used up your message limit of " ++ toString N ++ " messages.") := by
  have hiter : ∀ k, k ≤ N → rate_limit_iter (some N) rsl room_size sender c0 k sender = k := by
    intro k
    induction k with
    | zero => intro _; exact h0
    | succ k ih =>
      intro hk
      have hkN : k < N := hk
      have hks : rate_limit_iter (some N) rsl room_size sender c0 k sender = k :=
        ih (Nat.le_of_lt hkN)
      show (rate_limit (some N) rsl room_size
          (rate_limit_iter (some N) rsl room_size sender c0 k) sender).counters sender = k + 1
      simp only [rate_limit, Option.getD_some]
      rw [if_neg hroom, if_pos (by rw [hks]; exact hkN)]
      simp [hks]
  have hNfull : ¬ (rate_limit_iter (some N) rsl room_size sender c0 N sender < N) := by
    rw [hiter N (Nat.le_refl N)]
    exact Nat.lt_irrefl N
  refine ⟨?_, hiter N (Nat.le_refl N), ?_, ?_, ?_⟩
  · intro k hk
    constructor
    · simp only [rate_limit, Option.getD_some]
      rw [if_neg hroom, if_pos (by rw [hiter k (Nat.le_of_lt hk)]; exact hk)]
    · exact hiter (k + 1) hk
  · simp only [rate_limit, Option.getD_some]
    rw [if_neg hroom, if_neg hNfull]
  · simp only [rate_limit, Option.getD_some]
    rw [if_neg hroom, if_neg hNfull]
  · simp only [rate_limit, Option.getD_some]
    rw [if_neg hroom, if_neg hNfull]

/-- Witness for C3 at `N = 2`, room size 3 under a limit of 10 and a
fresh counter map. -/
theorem rate_limit_message_limit_behavior_witness :
    (¬ (3 : Nat) > (some 10 : Option Nat).getD u64max) ∧
    ((fun _ : String => 0) "u" = 0) ∧
    rate_limit_iter (some 2) (some 10) 3 "u" (fun _ => 0) 2 "u" = 2 ∧
    (rate_limit (some 2) (some 10) 3
        (rate_limit_iter (some 2) (some 10) 3 "u" (fun _ => 0) 2) "u").throttled = true := by
  refine ⟨by decide, rfl, ?_, ?_⟩
  · exact (rate_limit_message_limit_behavior 2 (some 10) 3 (fun _ => 0) "u" (by decide) rfl).2.1
  · exact (rate_limit_message_limit_behavior 2 (some 10) 3 (fun _ => 0) "u" (by decide) rfl).2.2.1

/-- C4: when the room's active member count exceeds the configured
room-size limit, `rate_limit` returns throttled = true silently: the
counter map is returned unchanged and no notice is sent. -/
theorem rate_limit_room_size_silent (ml rsl : Option Nat) (room_size : Nat)
    (c : String → Nat) (sender : String) (h : room_size > rsl.getD u64max) :
    (rate_limit ml rsl room_size c sender).throttled = true ∧
    (rate_limit ml rsl room_size c sender).counters = c ∧
    (rate_limit ml rsl room_size c sender).notice = none := by
  simp only [rate_limit]
  rw [if_pos h]
  exact ⟨rfl, rfl, rfl⟩

/-- Witness for C4: room of 6 against a configured limit of 5. -/
theorem rate_limit_room_size_silent_witness :
    ((6 : Nat) > (some 5 : Option Nat).getD u64max) ∧
    ((rate_limit none (some 5) 6 (fun _ => 0) "u").throttled = true ∧
     (rate_limit none (some 5) 6 (fun _ => 0) "u").counters = (fun _ => 0) ∧
     (rate_limit none (some 5) 6 (fun _ => 0) "u").notice = none) :=
  ⟨by decide, rate_limit_room_size_silent none (some 5) 6 (fun _ => 0) "u" (by decide)⟩

/-- C7: a non-directive text event is rendered into the transcript with
prefix `ASSISTANT: ` when the sender is the bot and `USER: ` otherwise,
unless the lurk state resolved so far is true, in which case the event is
dropped entirely; nothing else in the accumulator changes. -/
theorem nondirective_text_rendering (botId : String) (models : List String) (st : CtxState)
    (sender body : String) (h : is_command body = false) :
    processEvent botId models st (some (sender, MsgType.text body)) =
      ({ st with messages := st.messages ++
          (if st.lurk.getD false then []
           else [(if sender == botId then "ASSISTANT: " else "USER: ") ++ body ++ "\n"]) }, false) := by
  cases hl : st.lurk.getD false with
  | true => simp [processEvent, h, hl]
  | false =>
    cases hs : sender == botId with
    | true => simp [processEvent, h, hl, hs]
    | false => simp [processEvent, h, hl, hs]

/-- Witness for C7: a plain text event from a user with no lurk state is
rendered as a `USER: ` line. -/
theorem nondirective_text_rendering_witness :
    is_command "hello" = false ∧
    processEvent "bot" [] ⟨[], none, none, []⟩ (some ("u", MsgType.text "hello")) =
      (⟨["USER: hello\n"], none, none, []⟩, false) := by
  refine ⟨by decide, ?_⟩
  rw [nondirective_text_rendering "bot" [] ⟨[], none, none, []⟩ "u" "hello" (by decide)]
  decide

/-- C10: a notice event sent by the bot itself contributes nothing to the
transcript, while a notice from any other sender is rendered as a
`USER sent a notice: ` line; in particular a history whose newest event
is a bot `.response:` notice yields a transcript without it. -/
theorem bot_notice_excluded :
    (∀ (botId : String) (models : List String) (st : CtxState) (sender body : String),
      processEvent botId models st (some (sender, MsgType.notice body)) =
        ({ st with messages := st.messages ++
            (if sender == botId then [] else ["USER sent a notice: " ++ body ++ "\n"]) }, false)) ∧
    get_context "bot" []
        [Except.ok ⟨[some ("bot", MsgType.notice ".response:\nhi"),
                     some ("u", MsgType.text "hello")], none⟩] =
      Except.ok ("USER: hello\n", none, none, []) := by
  constructor
  · intro botId models st sender body
    cases hs : sender == botId with
    | true => simp [processEvent, hs]
    | false => simp [processEvent, hs]
  · decide

/-- C9 (counterexample): with the title model call succeeding and the
set-name call failing with a permission error, `rename` sends the
permission notice and returns early: no topic update is attempted, so
the topic stage is not resilient to a name-permission failure. -/
theorem rename_name_permission_counterexample :
    rename_trace ⟨false, some "chat", Except.ok "Title", true, Except.ok "Topic", false⟩ =
      [RoomAction.setName "Title",
       RoomAction.sendNotice ".error: I don\x27t have permission to rename the room"] ∧
    (rename_trace
        ⟨false, some "chat", Except.ok "Title", true, Except.ok "Topic", false⟩).any isSetTopic =
      false := by
  constructor <;> decide

/-- C9 (amended): a permission failure on either room-metadata update is
surfaced as a user-visible notice; a topic-permission failure aborts
nothing further (the name was already applied), but a name-permission
failure aborts the rename early, so the topic stage is NOT attempted
after it; only a failure of the title model call itself leaves the topic
stage still attempted. -/
theorem rename_failure_handling :
    (∀ (ctx result : String) (tr : Except String String) (tf : Bool),
      rename_trace ⟨false, some ctx, Except.ok result, true, tr, tf⟩ =
        [RoomAction.setName (clean_summary_response result none),
         RoomAction.sendNotice ".error: I don\x27t have permission to rename the room"]) ∧
    (∀ ctx r1 r2 : String,
      rename_trace ⟨false, some ctx, Except.ok r1, false, Except.ok r2, true⟩ =
        [RoomAction.setName (clean_summary_response r1 none),
         RoomAction.setRoomTopic (clean_summary_response r2 none),
         RoomAction.sendNotice ".error: I don\x27t have permission to set the topic"]) ∧
    (∀ (ctx e : String) (snf : Bool) (r2 : String),
      rename_trace ⟨false, some ctx, Except.error e, snf, Except.ok r2, false⟩ =
        [RoomAction.setRoomTopic (clean_summary_response r2 none)]) := by
  refine ⟨?_, ?_, ?_⟩ <;> intros <;> rfl

/-- C6: during the backward scan a `.nolurk` directive unconditionally
resolves lurk to false regardless of prior state, while a `.lurk`
directive resolves it to true only when it is still unset; consequently a
history holding only `.lurk` resolves to lurk = true, and `.lurk`
followed by an older `.nolurk` resolves to lurk = false (the
unconditional-overwrite quirk). -/
theorem lurk_directive_resolution :
    (∀ (botId : String) (models : List String) (st : CtxState) (sender suffix : String),
      (processEvent botId models st
          (some (sender, MsgType.text (".nolurk" ++ suffix)))).1.lurk = some false) ∧
    (∀ (botId : String) (models : List String) (st : CtxState) (sender suffix : String),
      (processEvent botId models st
          (some (sender, MsgType.text (".lurk" ++ suffix)))).1.lurk =
        (if st.lurk.isNone then some true else st.lurk)) ∧
    get_context "bot" [] [Except.ok ⟨[some ("u", MsgType.text ".lurk")], none⟩] =
      Except.ok ("", none, some true, []) ∧
    get_context "bot" []
        [Except.ok ⟨[some ("u", MsgType.text ".lurk"), some ("u", MsgType.text ".nolurk")],
          none⟩] =
      Except.ok ("", none, some false, []) := by
  refine ⟨?_, ?_, by decide, by decide⟩
  · intro botId models st sender suffix
    have hno : starts_with (".nolurk" ++ suffix) ".nolurk" = true := starts_with_append_left _ _
    have hc : is_command (".nolurk" ++ suffix) = true :=
      is_command_append ".nolurk" suffix (by decide) (by decide) (by decide)
    have hm : starts_with (".nolurk" ++ suffix) ".model" = false := not_model_of_nolurk hno
    simp [processEvent, hc, hno, hm]
  · intro botId models st sender suffix
    have hl0 : starts_with (".lurk" ++ suffix) ".lurk" = true := starts_with_append_left _ _
    have hc : is_command (".lurk" ++ suffix) = true :=
      is_command_append ".lurk" suffix (by decide) (by decide) (by decide)
    have hm : starts_with (".lurk" ++ suffix) ".model" = false := not_model_of_lurk hl0
    have hno : starts_with (".lurk" ++ suffix) ".nolurk" = false := not_nolurk_of_lurk hl0
    have hcl : starts_with (".lurk" ++ suffix) ".clear" = false := not_clear_of_lurk hl0
    cases hlk : st.lurk with
    | none => simp [processEvent, hc, hm, hno, hl0, hlk]
    | some v => simp [processEvent, hc, hm, hno, hl0, hcl, hlk]

/-- C5: the model override resolved by the scan of a history page is
exactly the second whitespace-separated token of the first (most recent)
`.model` directive whose token appears in the backend model list, looking
only at events before any `.clear` directive; in particular `.model b`
(newer, valid) wins over `.model a` (older). -/
theorem model_override_resolution (botId : String) (models : List String) :
    (∀ evs : List REvent,
      (get_context_loop botId models initCtx [Except.ok ⟨evs, none⟩]).model_response =
        resolvedModelSpec models evs) ∧
    get_context "bot" ["a", "b"]
        [Except.ok ⟨[some ("u", MsgType.text ".model b"),
                     some ("u", MsgType.text ".model a")], none⟩] =
      Except.ok ("", some "b", none, []) := by
  constructor
  · intro evs
    rw [get_context_loop_single, processChunk_model, resolvedModelSpec_eq_visited]
    rfl
  · decide

/-- C8: the media list produced by a reconstruction pass is the reverse
of the scan-order (newest-first) media references of the visited events,
hence chronological (oldest-first); and splitting the events across a
page boundary at any point does not change the result of the pass. -/
theorem media_chronological_order (botId : String) (models : List String) :
    (∀ fetches : List (Except Unit Batch),
      (get_context_loop botId models initCtx fetches).media =
        (mediaRefs (scanStream fetches)).reverse) ∧
    (∀ (e1 e2 : List REvent) (tok : String),
      get_context botId models [Except.ok ⟨e1 ++ e2, none⟩] =
        get_context botId models [Except.ok ⟨e1, some tok⟩, Except.ok ⟨e2, none⟩]) := by
  constructor
  · intro fetches
    rw [get_context_loop_media]
    simp [initCtx]
  · intro e1 e2 tok
    unfold get_context
    have hloop : get_context_loop botId models initCtx [Except.ok ⟨e1 ++ e2, none⟩] =
        get_context_loop botId models initCtx [Except.ok ⟨e1, some tok⟩, Except.ok ⟨e2, none⟩] := by
      rw [get_context_loop_single]
      simp only [get_context_loop]
      rw [processChunk_append]
      cases h1 : (processChunk botId models initCtx e1).2 with
      | true => simp [h1]
      | false =>
        simp only [h1, Bool.false_eq_true, if_false]
        split <;> rfl
    rw [hloop]

/-- C1: if the backward scan reaches a `.clear` directive — after any
number of fully scanned earlier pages (each successfully fetched, with a
continuation token and no earlier `.clear`) and any number of
non-breaking events before it on its own page — the scan terminates
there: the result of `get_context` is identical to the result on the
history truncated just before the `.clear` event, whatever the older
events on that page, the page's continuation token, and all older pages
may be.  In particular no further page is fetched and no event strictly
older than the directive contributes to the transcript, model override,
lurk flag or media list. -/
theorem clear_truncates_scan (botId : String) (models : List String)
    (okPages : List Batch) (pre post : List REvent) (sender suffix : String)
    (e : Option String) (rest : List (Except Unit Batch))
    (hok : ∀ b ∈ okPages, b.endToken.isSome = true ∧ b.chunk.any breaksScan = false)
    (hpre : pre.any breaksScan = false) :
    get_context botId models
        (okPages.map Except.ok ++
          Except.ok ⟨pre ++ some (sender, MsgType.text (".clear" ++ suffix)) :: post, e⟩ :: rest) =
      get_context botId models (okPages.map Except.ok ++ [Except.ok ⟨pre, none⟩]) := by
  have hclear : breaksScan (some (sender, MsgType.text (".clear" ++ suffix))) = true := by
    simp only [breaksScan]
    rw [is_command_append ".clear" suffix (by decide) (by decide) (by decide),
      starts_with_append_left]
    rfl
  have key : ∀ (ops : List Batch) (st : CtxState),
      (∀ b ∈ ops, b.endToken.isSome = true ∧ b.chunk.any breaksScan = false) →
      get_context_loop botId models st
          (ops.map Except.ok ++
            Except.ok ⟨pre ++ some (sender, MsgType.text (".clear" ++ suffix)) :: post, e⟩ ::
              rest) =
        get_context_loop botId models st (ops.map Except.ok ++ [Except.ok ⟨pre, none⟩]) := by
    intro ops
    induction ops with
    | nil =>
      intro st _
      simp only [List.map_nil, List.nil_append]
      rw [get_context_loop_single]
      have hsplit : processChunk botId models st
          (pre ++ some (sender, MsgType.text (".clear" ++ suffix)) :: post) =
          ((processChunk botId models st pre).1, true) := by
        rw [processChunk_append]
        rw [processChunk_break, hpre]
        simp only [Bool.false_eq_true, if_false]
        rw [processChunk_cons, processEvent_of_break botId models _ _ hclear]
        simp
      simp [get_context_loop, hsplit]
    | cons b ops ih =>
      intro st hops
      obtain ⟨hend, hnb⟩ := hops b (List.mem_cons_self _ _)
      obtain ⟨tok, htok⟩ := Option.isSome_iff_exists.mp hend
      simp only [List.map_cons, List.cons_append, get_context_loop]
      rw [processChunk_break, hnb]
      simp only [Bool.false_eq_true, if_false, htok]
      exact ih _ (fun x hx => hops x (List.mem_cons_of_mem _ hx))
  unfold get_context
  rw [key okPages initCtx hok]

/-- Witness for C1: one fully scanned page, then a page holding one
message, the `.clear` directive, and an older message, followed by a
further (never fetched) failing page; the result equals the truncated
history's result. -/
theorem clear_truncates_scan_witness :
    (∀ b ∈ [(⟨[some ("u", MsgType.text "newest")], some "t1"⟩ : Batch)],
      b.endToken.isSome = true ∧ b.chunk.any breaksScan = false) ∧
    ([some ("u", MsgType.text "hi")] : List REvent).any breaksScan = false ∧
    get_context "bot" []
        ([Except.ok ⟨[some ("u", MsgType.text "newest")], some "t1"⟩] ++
          Except.ok ⟨[some ("u", MsgType.text "hi"),
                      some ("u", MsgType.text (".clear" ++ ": wipe")),
                      some ("u", MsgType.text "old")], some "t2"⟩ :: [Except.error ()]) =
      get_context "bot" []
        ([Except.ok ⟨[some ("u", MsgType.text "newest")], some "t1"⟩] ++
          [Except.ok ⟨[some ("u", MsgType.text "hi")], none⟩]) := by
  refine ⟨by decide, by decide, ?_⟩
  exact clear_truncates_scan "bot" []
    [⟨[some ("u", MsgType.text "newest")], some "t1"⟩]
    [some ("u", MsgType.text "hi")] [some ("u", MsgType.text "old")]
    "u" ": wipe" (some "t2") [Except.error ()] (by decide) (by decide)
